import Mathlib

/-!
Verification of the `zhao-zg/proxy-web` Cloudflare worker (`src/_worker.js`).

The worker is shallowly embedded: JavaScript strings are `List Char`, the
platform `Headers` object is an association list with case-insensitive
lookups, and the WHATWG `URL` object is modelled by a small record together
with a parser restricted to the absolute `http(s)` forms the worker
manipulates.  Pure worker functions are translated definition by definition
from the source; the upstream `fetch` is the model boundary, so the request
pipeline is split into the part that runs before the fetch
(`handleRequestLocal`) and the response-processing stage that runs after it
(`proxyUpstreamResponse`).
-/

/-- JavaScript strings are modelled as lists of characters. -/
abbrev Str := List Char

/-- Coerce a Lean string literal into the `List Char` representation. -/
def jstr (s : String) : Str := s.data

/-- Boolean prefix test on character lists (JS `String.prototype.startsWith`). -/
def startsWithL : Str → Str → Bool
  | [], _ => true
  | _ :: _, [] => false
  | p :: ps, c :: cs => p = c && startsWithL ps cs

/-- Boolean suffix test on character lists (JS `String.prototype.endsWith`). -/
def endsWithL (l suf : Str) : Bool := startsWithL suf.reverse l.reverse

/-- Substring test (JS `String.prototype.includes`). -/
def containsSub : Str → Str → Bool
  | [], pat => pat.isEmpty
  | c :: rest, pat => startsWithL pat (c :: rest) || containsSub rest pat

/-- JS `split('.')`: split at every dot, keeping empty pieces. -/
def splitDot : Str → List Str
  | [] => [[]]
  | c :: rest =>
      if c = '.' then [] :: splitDot rest
      else
        match splitDot rest with
        | [] => [[c]]
        | p :: ps => (c :: p) :: ps

/-- JS `split('--')`: split at every leftmost, non-overlapping occurrence of
the double-hyphen delimiter, keeping empty pieces. -/
def splitDD : Str → List Str
  | [] => [[]]
  | [c] => [[c]]
  | c₁ :: c₂ :: rest =>
      if c₁ = '-' ∧ c₂ = '-' then [] :: splitDD rest
      else
        match splitDD (c₂ :: rest) with
        | [] => [[c₁]]
        | p :: ps => (c₁ :: p) :: ps

/-- JS `Array.prototype.join(sep)`. -/
def joinSep (sep : Str) : List Str → Str
  | [] => []
  | [p] => p
  | p :: ps => p ++ sep ++ joinSep sep ps

/-- JS `replace(/\./g, '--')` (the regex written with a single backslash,
as in `convertUrlToSubdomain`): every dot becomes a double hyphen. -/
def replaceDotsWithDD : Str → Str
  | [] => []
  | c :: rest =>
      if c = '.' then '-' :: '-' :: replaceDotsWithDD rest
      else c :: replaceDotsWithDD rest

/-- JS `replace(/\\./g, '--')` exactly as written in `rewriteUrl` and
`rewriteGeneric` (source lines 485 and 508): the doubled backslash makes the
regex match a literal backslash followed by any character, so each such pair
becomes a double hyphen and dots are left alone. -/
def replaceBackslashAnyWithDD : Str → Str
  | [] => []
  | ['\\'] => ['\\']
  | '\\' :: _ :: rest => '-' :: '-' :: replaceBackslashAnyWithDD rest
  | c :: rest => c :: replaceBackslashAnyWithDD rest

/-- ASCII lower-casing of one character (JS `toLowerCase`, restricted to the
ASCII range actually exercised by the worker). -/
def lcChar (c : Char) : Char :=
  if c.toNat ≥ 65 ∧ c.toNat ≤ 90 then Char.ofNat (c.toNat + 32) else c

/-- ASCII lower-casing of a string. -/
def toLowerL (l : Str) : Str := l.map lcChar

/-- The whitespace characters stripped by JS `String.prototype.trim`
(the core ASCII set; the worker only ever trims over this set). -/
def wsChars : List Char := [' ', '\t', '\n', '\r', '\x0b', '\x0c']

/-- Whitespace test used by the model of JS `trim`. -/
def isJsWhitespace (c : Char) : Bool := wsChars.contains c

/-- JS `String.prototype.trim`. -/
def jsTrim (l : Str) : Str :=
  ((l.dropWhile isJsWhitespace).reverse.dropWhile isJsWhitespace).reverse

/-- One character of `[a-zA-Z0-9-]`. -/
def isSubChar (c : Char) : Bool := c.isAlpha || c.isDigit || c = '-'

/-- One character of `[a-zA-Z0-9.-]`. -/
def isHostChar (c : Char) : Bool := isSubChar c || c = '.'

/-- JS `/^[a-zA-Z0-9-]+$/.test(s)`. -/
def matchesSubdomainCharset (l : Str) : Bool := !l.isEmpty && l.all isSubChar

/-- JS `/^[a-zA-Z0-9.-]+$/.test(s)`. -/
def matchesHostnameCharset (l : Str) : Bool := !l.isEmpty && l.all isHostChar

/-- JS `Number` applied to a digit string: decimal value. -/
def digitsToNat (l : Str) : Nat := l.foldl (fun n c => 10 * n + (c.toNat - 48)) 0

/-- Decimal digit characters, by table. -/
def digitChar : Nat → Char
  | 0 => '0' | 1 => '1' | 2 => '2' | 3 => '3' | 4 => '4'
  | 5 => '5' | 6 => '6' | 7 => '7' | 8 => '8' | _ => '9'

/-- Canonical decimal representation of a natural number below 1000. -/
def natDec3 (n : Nat) : Str :=
  if n < 10 then [digitChar n]
  else if n < 100 then [digitChar (n / 10), digitChar (n % 10)]
  else [digitChar (n / 100), digitChar (n / 10 % 10), digitChar (n % 10)]

/-- Dotted-decimal string `a.b.c.d` of four octets. -/
def ipv4Str (a b c d : Nat) : Str :=
  natDec3 a ++ '.' :: natDec3 b ++ '.' :: natDec3 c ++ '.' :: natDec3 d

/-- All suffixes of a list, longest first. -/
def suffixesL : Str → List Str
  | [] => [[]]
  | c :: rest => (c :: rest) :: suffixesL rest

section WorkerCodec

/-- `CONFIG.ALLOWED_METHODS` from the source. -/
def allowedMethods : List Str :=
  [jstr "GET", jstr "POST", jstr "PUT", jstr "DELETE", jstr "PATCH",
   jstr "HEAD", jstr "OPTIONS"]

/-- `CONFIG.BLOCKED_HEADERS` from the source. -/
def blockedHeaders : List Str :=
  [jstr "cf-connecting-ip", jstr "cf-ipcountry", jstr "cf-ray",
   jstr "cf-visitor", jstr "cf-request-id", jstr "cf-warp-tag-id",
   jstr "cf-worker", jstr "x-forwarded-proto", jstr "x-forwarded-for",
   jstr "x-forwarded-host", jstr "x-forwarded-port", jstr "x-real-ip",
   jstr "x-original-forwarded-for", jstr "x-cluster-client-ip",
   jstr "x-forwarded", jstr "forwarded-for", jstr "forwarded", jstr "via",
   jstr "x-proxy-authorization", jstr "proxy-authorization",
   jstr "proxy-connection", jstr "true-client-ip", jstr "x-client-ip",
   jstr "client-ip", jstr "x-originating-ip", jstr "x-remote-ip",
   jstr "x-remote-addr", jstr "remote-addr"]

/-- `isValidSubdomainFormat` (source lines 878–895): the encoded label must
not start or end with a hyphen, must split on `--` into at least two parts,
and every part must be non-empty, match `[a-zA-Z0-9-]+`, and not start or
end with a hyphen. -/
def isValidSubdomainFormat (subdomain : Str) : Bool :=
  if subdomain.head? = some '-' || subdomain.getLast? = some '-' then false
  else
    let parts := splitDD subdomain
    if parts.length < 2 then false
    else parts.all fun part =>
      decide (part.length > 0) && matchesSubdomainCharset part &&
      !(part.head? = some '-') && !(part.getLast? = some '-')

/-- `extractSubdomain` (source lines 854–871): take the first dot-label of
the hostname, require at least two dot-labels, the `[a-zA-Z0-9-]+` charset,
and `isValidSubdomainFormat`. -/
def extractSubdomain (hostname : Str) : Option Str :=
  let parts := splitDot hostname
  if parts.length < 2 then none
  else
    match parts with
    | [] => none
    | subdomain :: _ =>
      if !matchesSubdomainCharset subdomain then none
      else if !isValidSubdomainFormat subdomain then none
      else some subdomain

/-- `convertSubdomainToUrl` (source lines 922–944): after a falsy check and
`trim`, validate the `[a-zA-Z0-9-]+` charset, split on `--`, require at
least two parts, all non-empty, and join with dots. -/
def convertSubdomainToUrl (subdomain : Str) : Option Str :=
  if subdomain.isEmpty then none
  else
    let s := jsTrim subdomain
    if !matchesSubdomainCharset s then none
    else
      let parts := splitDD s
      if parts.length < 2 then none
      else if parts.any (fun p => p.isEmpty) then none
      else some (joinSep ['.'] parts)

/-- `convertUrlToSubdomain` (source lines 951–961): after a falsy check,
validate the `[a-zA-Z0-9.-]+` charset and replace every dot by `--`. -/
def convertUrlToSubdomain (hostname : Str) : Option Str :=
  if hostname.isEmpty then none
  else if !matchesHostnameCharset hostname then none
  else some (replaceDotsWithDD hostname)

/-- `isStandardDomain` (source lines 1044–1048): the hostname must match
`/^[a-zA-Z0-9.-]+\.[a-zA-Z]{2,}$/`, contain a dot, and not contain `--`. -/
def isStandardDomain (hostname : Str) : Bool :=
  (hostname.all isHostChar &&
    (let r := hostname.reverse
     let run := r.takeWhile fun c => c.isAlpha
     decide (run.length ≥ 2) &&
       (match r.drop run.length with
        | '.' :: rest => !rest.isEmpty
        | _ => false))) &&
  hostname.contains '.' && !containsSub hostname (jstr "--")

end WorkerCodec

section PlatformModel

/-- Model of the WHATWG `URL` object, restricted to the components the
worker reads and writes.  `protocol` includes the trailing colon,
`pathname` starts with a slash, `search` is empty or starts with `?`. -/
structure JsURL where
  protocol : Str
  hostname : Str
  pathname : Str
  search : Str
deriving DecidableEq, Repr

/-- `url.origin` for the modelled URLs (no port is modelled). -/
def urlOrigin (u : JsURL) : Str := u.protocol ++ jstr "//" ++ u.hostname

/-- `url.toString()` for the modelled URLs. -/
def urlToString (u : JsURL) : Str :=
  u.protocol ++ jstr "//" ++ u.hostname ++ u.pathname ++ u.search

/-- Characters that terminate the host component during URL parsing. -/
def notHostEnd (c : Char) : Bool := c ≠ '/' && c ≠ '?' && c ≠ '#' && c ≠ ':'

/-- Parse the part of an absolute URL after the scheme.  Ports and fragments
are outside the model and make the parse fail; an empty path serializes to
`/` as in the WHATWG URL standard. -/
def parseAfterScheme (proto rest : Str) : Option JsURL :=
  let host := rest.takeWhile notHostEnd
  let tail := rest.drop host.length
  if host.isEmpty then none
  else if tail.contains '#' || tail.head? = some ':' then none
  else
    let path := tail.takeWhile fun c => c ≠ '?'
    let search := tail.drop path.length
    some ⟨proto, host, if path.isEmpty then ['/'] else path, search⟩

/-- Model of `new URL(s)` for absolute `http(s)` URLs. -/
def parseJsURL (s : Str) : Option JsURL :=
  if startsWithL (jstr "https://") s then parseAfterScheme (jstr "https:") (s.drop 8)
  else if startsWithL (jstr "http://") s then parseAfterScheme (jstr "http:") (s.drop 7)
  else none

/-- Model of `new URL(s, base.origin)`: absolute inputs parse on their own,
protocol-relative inputs take the base scheme, rooted and bare paths resolve
against the base origin. -/
def parseJsURLWithBase (s : Str) (base : JsURL) : Option JsURL :=
  if startsWithL (jstr "https://") s || startsWithL (jstr "http://") s then
    parseJsURL s
  else if startsWithL (jstr "//") s then
    parseAfterScheme base.protocol (s.drop 2)
  else if s.contains '#' || s.contains ':' then none
  else
    let path := s.takeWhile fun c => c ≠ '?'
    let search := s.drop path.length
    if startsWithL (jstr "/") s then some ⟨base.protocol, base.hostname, path, search⟩
    else some ⟨base.protocol, base.hostname, '/' :: path, search⟩

/-- Model of the Fetch `Headers` object: an association list of
name/value pairs.  All observations are case-insensitive, matching Fetch
semantics; the byte-casing of stored names is not observable and is kept as
given. -/
abbrev HeadersM := List (Str × Str)

/-- `headers.set(name, value)`: drop every entry matching the name
case-insensitively, then append the new pair. -/
def hSet (hs : HeadersM) (name value : Str) : HeadersM :=
  (hs.filter fun p => !(toLowerL p.1 = toLowerL name)) ++ [(name, value)]

/-- `headers.get(name)` (case-insensitive). -/
def hGet (hs : HeadersM) (name : Str) : Option Str :=
  (hs.find? fun p => toLowerL p.1 = toLowerL name).map fun p => p.2

/-- `headers.has(name)` (case-insensitive). -/
def hHas (hs : HeadersM) (name : Str) : Bool :=
  hs.any fun p => toLowerL p.1 = toLowerL name

/-- `headers.delete(name)` (case-insensitive). -/
def hDelete (hs : HeadersM) (name : Str) : HeadersM :=
  hs.filter fun p => !(toLowerL p.1 = toLowerL name)

/-- Model of a Fetch `Response` as far as the worker observes it: status,
headers and a fully buffered textual body. -/
structure ResponseM where
  status : Nat
  headers : HeadersM
  body : Str
deriving DecidableEq, Repr

/-- Model of the inbound `Request`: the parsed request URL, the method, the
inbound headers, and the request body's parsed JSON `url` field as used by
`/api/generate` (`none` models a body that fails `request.json()`; the inner
option models a missing `url` property). -/
structure JsRequest where
  url : JsURL
  method : Str
  headers : HeadersM
  body : Option (Option Str)
deriving DecidableEq, Repr

end PlatformModel

section WorkerPipeline

/-- `addCorsHeaders` (source lines 1079–1085). -/
def addCorsHeaders (headers : HeadersM) : HeadersM :=
  let h := hSet headers (jstr "Access-Control-Allow-Origin") (jstr "*")
  let h := hSet h (jstr "Access-Control-Allow-Methods") (joinSep (jstr ", ") allowedMethods)
  let h := hSet h (jstr "Access-Control-Allow-Headers")
      (jstr "Content-Type, Authorization, X-Requested-With, Accept, Origin")
  let h := hSet h (jstr "Access-Control-Max-Age") (jstr "86400")
  hSet h (jstr "Access-Control-Expose-Headers") (jstr "Content-Length, Content-Type")

/-- The error body produced by `createErrorResponse`; the wall-clock
timestamp is threaded in as the `now` parameter. -/
def errorBody (message : Str) (status : Nat) (now : Str) : Str :=
  jstr "\x7b\"error\":\"" ++ message ++ jstr "\",\"status\":" ++
    natDec3 status ++ jstr ",\"timestamp\":\"" ++ now ++ jstr "\"\x7d"

/-- `createErrorResponse` (source lines 1093–1110): a JSON error envelope
with CORS headers. -/
def createErrorResponse (message : Str) (status : Nat) (now : Str) : ResponseM :=
  let headers : HeadersM := [(jstr "Content-Type", jstr "application/json; charset=utf-8")]
  ⟨status, addCorsHeaders headers, errorBody message status now⟩

/-- The response headers deleted by `createProxyResponse` and
`cleanResponseHeaders`. -/
def responseHeadersToRemove : List Str :=
  [jstr "server", jstr "x-powered-by", jstr "x-aspnet-version",
   jstr "x-runtime", jstr "x-version", jstr "content-security-policy",
   jstr "x-frame-options", jstr "x-content-type-options"]

/-- `createProxyResponse` (source lines 968–995): copy the upstream
response, add CORS headers, delete server-identifying headers.  The body is
passed through untouched. -/
def createProxyResponse (r : ResponseM) : ResponseM :=
  let h := addCorsHeaders r.headers
  ⟨r.status, responseHeadersToRemove.foldl (fun acc n => hDelete acc n) h, r.body⟩

/-- `buildTargetUrl` (source lines 903–915): decode the subdomain, force the
`https` scheme, copy path and query from the inbound URL.  `none` models the
`Invalid subdomain format` throw. -/
def buildTargetUrl (subdomain : Str) (originalUrl : JsURL) : Option JsURL :=
  match convertSubdomainToUrl subdomain with
  | none => none
  | some targetDomain =>
    some ⟨jstr "https:", targetDomain, originalUrl.pathname, originalUrl.search⟩

/-- `isPublicUrl` (source lines 721–748): reject dotted-decimal IPv4
literals in the private ranges and the literal local hostnames. -/
def isPublicUrl (url : JsURL) : Bool :=
  let hostname := toLowerL url.hostname
  let isIpv4 :=
    (splitDot hostname).length = 4 &&
      (splitDot hostname).all fun p =>
        decide (1 ≤ p.length) && decide (p.length ≤ 3) && p.all Char.isDigit
  let parts := (splitDot hostname).map digitsToNat
  let p0 := parts.getD 0 0
  let p1 := parts.getD 1 0
  if isIpv4 &&
      (decide (p0 = 10) ||
       (decide (p0 = 172) && decide (16 ≤ p1) && decide (p1 ≤ 31)) ||
       (decide (p0 = 192) && decide (p1 = 168)) ||
       decide (p0 = 127) ||
       (decide (p0 = 169) && decide (p1 = 254))) then false
  else if hostname = jstr "localhost" || hostname = jstr "127.0.0.1" ||
      hostname = jstr "::1" then false
  else true

/-- `normalizeUrl` (source lines 694–714): trim, keep inputs that already
carry an `http(s)` scheme (case-insensitively), prepend `https:` to
protocol-relative inputs, prepend `https://` otherwise. -/
def normalizeUrl (url : Str) : Str :=
  let u := jsTrim url
  if startsWithL (jstr "http://") (toLowerL u) ||
     startsWithL (jstr "https://") (toLowerL u) then u
  else if startsWithL (jstr "//") u then jstr "https:" ++ u
  else jstr "https://" ++ u

/-- The copying loop of `cleanRequestHeaders` (source lines 797–803): every
inbound header whose lower-cased name is not in `CONFIG.BLOCKED_HEADERS` is
copied into a fresh header set. -/
def copyAllowedHeaders (originalHeaders : HeadersM) : HeadersM :=
  originalHeaders.foldl
    (fun acc p =>
      if blockedHeaders.contains (toLowerL p.1) then acc else hSet acc p.1 p.2) []

/-- The `Referer` rewrite of `cleanRequestHeaders` (source lines 814–824):
when the inbound request carried a `Referer`, re-point it at the target
host and scheme, or drop it when it does not parse as a URL. -/
def rewriteRefererHeader (cleaned originalHeaders : HeadersM) (targetUrl : JsURL) :
    HeadersM :=
  if hHas originalHeaders (jstr "Referer") then
    match hGet originalHeaders (jstr "Referer") with
    | some referer =>
      match parseJsURL referer with
      | some refererUrl =>
        hSet cleaned (jstr "Referer")
          (urlToString { refererUrl with
                          hostname := targetUrl.hostname,
                          protocol := targetUrl.protocol })
      | none => hDelete cleaned (jstr "Referer")
    | none => cleaned
  else cleaned

/-- The default-header backfill of `cleanRequestHeaders` (source lines
827–844): set the header only when it is absent. -/
def backfillHeader (cleaned : HeadersM) (name value : Str) : HeadersM :=
  if hHas cleaned name then cleaned else hSet cleaned name value

/-- `cleanRequestHeaders` (source lines 794–847): copy every inbound header
whose lower-cased name is not blocked, force `Host`, rewrite `Origin` and
`Referer` to the target, and backfill browser-like defaults. -/
def cleanRequestHeaders (originalHeaders : HeadersM) (targetUrl : JsURL) : HeadersM :=
  let cleaned := copyAllowedHeaders originalHeaders
  let cleaned := hSet cleaned (jstr "Host") targetUrl.hostname
  let cleaned :=
    if hHas originalHeaders (jstr "Origin") then
      hSet cleaned (jstr "Origin") (urlOrigin targetUrl)
    else cleaned
  let cleaned := rewriteRefererHeader cleaned originalHeaders targetUrl
  let cleaned := backfillHeader cleaned (jstr "User-Agent")
    (jstr "Mozilla/5.0 (Windows NT 10.0; Win64; x64) AppleWebKit/537.36 (KHTML, like Gecko) Chrome/120.0.0.0 Safari/537.36")
  let cleaned := backfillHeader cleaned (jstr "Accept")
    (jstr "text/html,application/xhtml+xml,application/xml;q=0.9,image/webp,*/*;q=0.8")
  let cleaned := backfillHeader cleaned (jstr "Accept-Language") (jstr "en-US,en;q=0.5")
  backfillHeader cleaned (jstr "Accept-Encoding") (jstr "gzip, deflate, br")

/-- `handleRedirect` (source lines 1003–1037): if the `Location` header
parses as an absolute URL with a standard (non-encoded) hostname, re-encode
that hostname and point it at the gateway base domain obtained by stripping
the first label of the original inbound hostname; otherwise pass the
response through `createProxyResponse` unchanged. -/
def handleRedirect (response : ResponseM) (originalRequestUrl : JsURL) : ResponseM :=
  match hGet response.headers (jstr "Location") with
  | none => createProxyResponse response
  | some location =>
    if location.isEmpty then createProxyResponse response
    else
      match parseJsURL location with
      | none => createProxyResponse response
      | some redirectUrl =>
        if isStandardDomain redirectUrl.hostname then
          match convertUrlToSubdomain redirectUrl.hostname with
          | some convertedSubdomain =>
            let proxyDomain := joinSep ['.'] ((splitDot originalRequestUrl.hostname).drop 1)
            let newUrl := { redirectUrl with hostname := convertedSubdomain ++ '.' :: proxyDomain }
            ⟨response.status,
             addCorsHeaders (hSet response.headers (jstr "Location") (urlToString newUrl)),
             response.body⟩
          | none => createProxyResponse response
        else createProxyResponse response

/-- `handleOptions` (source lines 1055–1073): a fresh header set with CORS
headers, mirroring the requested headers and (when allowed) the requested
method, returned with status 204. -/
def handleOptions (req : JsRequest) : ResponseM :=
  let headers := addCorsHeaders []
  let headers :=
    match hGet req.headers (jstr "Access-Control-Request-Headers") with
    | some rh =>
      if rh.isEmpty then headers
      else hSet headers (jstr "Access-Control-Allow-Headers") rh
    | none => headers
  let headers :=
    match hGet req.headers (jstr "Access-Control-Request-Method") with
    | some rm =>
      if rm.isEmpty then headers
      else if allowedMethods.contains rm then
        hSet headers (jstr "Access-Control-Allow-Methods") (joinSep (jstr ", ") allowedMethods)
      else headers
    | none => headers
  ⟨204, headers, []⟩

/-- The success body produced by `handleGenerateApi`
(`JSON.stringify` of the success object, insertion order preserved). -/
def genSuccessBody (originalUrl proxyUrl : Str) : Str :=
  jstr "\x7b\"success\":true,\"originalUrl\":\"" ++ originalUrl ++
    jstr "\",\"proxyUrl\":\"" ++ proxyUrl ++ jstr "\"\x7d"

/-- `handleGenerateApi` (source lines 637–687): validate the method and
body, normalize and parse the submitted URL, check the scheme and
public-ness, encode the hostname, and answer with the proxy link.  A `none`
from `convertUrlToSubdomain` is stringified as `null` by the JS template
literal, which the model reproduces. -/
def handleGenerateApi (req : JsRequest) (now : Str) : ResponseM :=
  if !(req.method = jstr "POST") then
    createErrorResponse (jstr "Method not allowed") 405 now
  else
    match req.body with
    | none => createErrorResponse (jstr "Invalid request body") 400 now
    | some urlField =>
      let targetUrl := urlField.getD []
      if targetUrl.isEmpty then createErrorResponse (jstr "URL is required") 400 now
      else
        let targetUrl := normalizeUrl targetUrl
        match parseJsURL targetUrl with
        | none => createErrorResponse (jstr "Invalid URL format") 400 now
        | some parsedUrl =>
          if !(parsedUrl.protocol = jstr "http:" || parsedUrl.protocol = jstr "https:") then
            createErrorResponse (jstr "Only HTTP and HTTPS URLs are supported") 400 now
          else if !isPublicUrl parsedUrl then
            createErrorResponse (jstr "Private network URLs are not allowed") 403 now
          else
            let proxySubdomain := (convertUrlToSubdomain parsedUrl.hostname).getD (jstr "null")
            let proxyDomain := joinSep ['.'] ((splitDot req.url.hostname).drop 1)
            let proxyUrl := jstr "https://" ++ proxySubdomain ++ '.' :: proxyDomain ++
              parsedUrl.pathname ++ parsedUrl.search
            ⟨200,
             [(jstr "Content-Type", jstr "application/json; charset=utf-8"),
              (jstr "Access-Control-Allow-Origin", jstr "*")],
             genSuccessBody targetUrl proxyUrl⟩

/-- Modelled: the static operator landing page markup (source lines
1117–1678) is presentation only and out of the verified core; its content is
modelled as the empty string. -/
def getProxyPageHTML (_hostname : Str) : Str := []

/-- `handleProxyPage` (source lines 614–630): route `/api/generate` to the
link-generation API, answer anything else with the static landing page. -/
def handleProxyPage (req : JsRequest) (now : Str) : ResponseM :=
  if req.url.pathname = jstr "/api/generate" then handleGenerateApi req now
  else
    ⟨200,
     [(jstr "Content-Type", jstr "text/html; charset=utf-8"),
      (jstr "Cache-Control", jstr "public, max-age=3600"),
      (jstr "X-Content-Type-Options", jstr "nosniff"),
      (jstr "X-Frame-Options", jstr "DENY"),
      (jstr "X-XSS-Protection", jstr "1; mode=block")],
     getProxyPageHTML req.url.hostname⟩

/-- The part of `handleRequest` (source lines 77–112) that runs before any
upstream fetch: landing-page interception, subdomain validation, method
allow-list, OPTIONS preflight, and target-URL construction.  `Sum.inl` is a
locally computed response; `Sum.inr` is the target URL handed to the
upstream fetch.  A `buildTargetUrl` failure is the thrown
`Invalid subdomain format` error caught by the outer handler as a 500. -/
def handleRequestLocal (req : JsRequest) (now : Str) : Sum ResponseM JsURL :=
  let hostParts := splitDot req.url.hostname
  if hostParts.head? = some (jstr "proxy") ∨ hostParts.head? = some (jstr "proxy--") then
    Sum.inl (handleProxyPage req now)
  else
    match extractSubdomain req.url.hostname with
    | none => Sum.inl (createErrorResponse (jstr "Invalid subdomain format") 400 now)
    | some subdomain =>
      if !(allowedMethods.contains req.method) then
        Sum.inl (createErrorResponse (jstr "Method not allowed") 405 now)
      else if req.method = jstr "OPTIONS" then Sum.inl (handleOptions req)
      else
        match buildTargetUrl subdomain req.url with
        | some targetUrl => Sum.inr targetUrl
        | none => Sum.inl (createErrorResponse (jstr "Invalid subdomain format") 500 now)

/-- The CDN suffix regexes of `shouldProxyUrl` exactly as written (source
lines 539–545): each `/\\.name\\.tld$/` literal demands a literal backslash
followed by any character before each name part, so the hostname must end
with `\〈c〉name\〈c〉tld`. -/
def cdnPatternMatch (host core1 core2 : Str) : Bool :=
  (suffixesL host).any fun s =>
    match s with
    | '\\' :: _ :: rest =>
      startsWithL core1 rest &&
        (match rest.drop core1.length with
         | '\\' :: _ :: rest2 => rest2 = core2
         | _ => false)
    | _ => false

/-- `shouldProxyUrl` (source lines 527–556): proxy the target host and its
subdomains; the CDN exclusion list then returns `false`, as does the final
fallthrough. -/
def shouldProxyUrl (url targetUrl : JsURL) : Bool :=
  if url.hostname = targetUrl.hostname then true
  else if endsWithL url.hostname ('.' :: targetUrl.hostname) then true
  else if cdnPatternMatch url.hostname (jstr "cloudflare") (jstr "com") ||
      cdnPatternMatch url.hostname (jstr "googleapis") (jstr "com") ||
      cdnPatternMatch url.hostname (jstr "gstatic") (jstr "com") ||
      cdnPatternMatch url.hostname (jstr "jsdelivr") (jstr "net") ||
      cdnPatternMatch url.hostname (jstr "unpkg") (jstr "com") then false
  else false

/-- `rewriteUrl` (source lines 497–519): skip `data:`, `blob:` and
fragment-only values, resolve against the target origin, and when eligible
replace the hostname via the `replace(/\\./g, '--')` call as written and
force the `https` scheme; any parse failure returns the input unchanged. -/
def rewriteUrl (url : Str) (targetUrl : JsURL) (proxyDomain : Str) : Str :=
  if url.isEmpty || startsWithL (jstr "data:") url || startsWithL (jstr "blob:") url ||
      startsWithL (jstr "#") url then url
  else
    match parseJsURLWithBase url targetUrl with
    | none => url
    | some absoluteUrl =>
      if shouldProxyUrl absoluteUrl targetUrl then
        let proxySubdomain := replaceBackslashAnyWithDD absoluteUrl.hostname
        urlToString { absoluteUrl with
                       hostname := proxySubdomain ++ '.' :: proxyDomain,
                       protocol := jstr "https:" }
      else url

/-- JSON values as produced by the platform `JSON.parse`. -/
inductive JsonVal where
  | str (s : Str)
  | num (n : Int)
  | bool (b : Bool)
  | null
  | arr (items : List JsonVal)
  | obj (fields : List (Str × JsonVal))
deriving Repr

mutual

/-- `rewriteJsonObject` (source lines 447–467): rewrite string values that
start with `http://` or `https://`, recurse through arrays and objects,
leave everything else alone. -/
def rewriteJsonObject (targetUrl : JsURL) (proxyDomain : Str) : JsonVal → JsonVal
  | .str s =>
    if startsWithL (jstr "http://") s || startsWithL (jstr "https://") s then
      .str (rewriteUrl s targetUrl proxyDomain)
    else .str s
  | .arr items => .arr (rewriteJsonList targetUrl proxyDomain items)
  | .obj fields => .obj (rewriteJsonFields targetUrl proxyDomain fields)
  | .num n => .num n
  | .bool b => .bool b
  | .null => .null

/-- Recursion of `rewriteJsonObject` through array elements. -/
def rewriteJsonList (targetUrl : JsURL) (proxyDomain : Str) : List JsonVal → List JsonVal
  | [] => []
  | v :: vs =>
    rewriteJsonObject targetUrl proxyDomain v :: rewriteJsonList targetUrl proxyDomain vs

/-- Recursion of `rewriteJsonObject` through object fields. -/
def rewriteJsonFields (targetUrl : JsURL) (proxyDomain : Str) :
    List (Str × JsonVal) → List (Str × JsonVal)
  | [] => []
  | (k, v) :: fs =>
    (k, rewriteJsonObject targetUrl proxyDomain v) :: rewriteJsonFields targetUrl proxyDomain fs

end

/-- `rewriteJson` (source lines 429–438): parse, rewrite, re-serialize; a
parse failure returns the original text unchanged.  The platform
`JSON.parse` and `JSON.stringify` are passed in as the model boundary. -/
def rewriteJson (jsonParse : Str → Option JsonVal) (jsonStringify : JsonVal → Str)
    (json : Str) (targetUrl : JsURL) (proxyDomain : Str) : Str :=
  match jsonParse json with
  | none => json
  | some data => jsonStringify (rewriteJsonObject targetUrl proxyDomain data)

/-- The response-processing stage of `proxyRequest` as it effectively runs.
The source declares `proxyRequest` twice (lines 120–149 and 756–786); under
JavaScript function-declaration hoisting the later declaration overwrites
the earlier one, so the stage that rewrites content
(`createProxyResponseWithRewrite`) is dead code and every non-redirect
upstream response goes through `createProxyResponse` with its body
untouched. -/
def proxyUpstreamResponse (upstream : ResponseM) (originalRequestUrl : JsURL) : ResponseM :=
  if 300 ≤ upstream.status ∧ upstream.status < 400 then
    handleRedirect upstream originalRequestUrl
  else createProxyResponse upstream

end WorkerPipeline

section ClaimMaterial

/-- No two consecutive hyphens occur in the string. -/
def noDD : Str → Bool
  | [] => true
  | [_] => true
  | c₁ :: c₂ :: rest => !(c₁ = '-' && c₂ = '-') && noDD (c₂ :: rest)

/-- The round-trip claim's label condition: a label matches `[A-Za-z0-9-]+`
and neither starts nor ends with a hyphen. -/
def claimLabel (l : Str) : Bool :=
  matchesSubdomainCharset l && !(l.head? = some '-') && !(l.getLast? = some '-')

/-- A header set is clean when no entry's lower-cased name is on the
deny-list. -/
def HeadersClean (hs : HeadersM) : Prop :=
  ∀ p ∈ hs, blockedHeaders.contains (toLowerL p.1) = false

/-- Project the locally computed response out of `handleRequestLocal`
(the upstream-fetch case yields a dummy). -/
def localRespOf : Sum ResponseM JsURL → ResponseM
  | Sum.inl r => r
  | Sum.inr _ => ⟨0, [], []⟩

/-- The inbound request URL of the end-to-end scenario:
`https://youtube--com.gw.tld/watch?v=1`. -/
def c1RequestUrl : JsURL :=
  ⟨jstr "https:", jstr "youtube--com.gw.tld", jstr "/watch", jstr "?v=1"⟩

/-- The decoded target URL of the end-to-end scenario:
`https://youtube.com/watch?v=1`. -/
def c1TargetUrl : JsURL :=
  ⟨jstr "https:", jstr "youtube.com", jstr "/watch", jstr "?v=1"⟩

/-- The upstream HTML body of the end-to-end scenario, containing an
absolute same-origin link. -/
def c1HtmlBody : Str :=
  jstr "<html><body><a href=\"https://youtube.com/next\">next</a></body></html>"

/-- The upstream non-redirect `text/html` response of the end-to-end
scenario. -/
def c1Upstream : ResponseM :=
  ⟨200, [(jstr "content-type", jstr "text/html; charset=utf-8")], c1HtmlBody⟩

/-- The upstream 302 response of the redirect scenario, with
`Location: https://x.b.com/path`. -/
def c6Upstream : ResponseM :=
  ⟨302, [(jstr "Location", jstr "https://x.b.com/path")], []⟩

/-- The inbound request URL of the redirect scenario, with hostname
`a--b--com.gw.tld`. -/
def c6RequestUrl : JsURL :=
  ⟨jstr "https:", jstr "a--b--com.gw.tld", jstr "/", []⟩

/-- An OPTIONS request to `foo.gw.tld`: the first label carries no `--`
delimiter, so subdomain validation fails before the OPTIONS branch. -/
def c7InvalidOptionsReq : JsRequest :=
  ⟨⟨jstr "https:", jstr "foo.gw.tld", jstr "/", []⟩, jstr "OPTIONS", [], none⟩

/-- An OPTIONS request to the valid encoded host `a--com.gw.tld`. -/
def c7ValidOptionsReq : JsRequest :=
  ⟨⟨jstr "https:", jstr "a--com.gw.tld", jstr "/", []⟩, jstr "OPTIONS", [], none⟩

/-- The link-generation scenario request: `POST /api/generate` with body
`\x7b"url":"github.com"\x7d` against inbound host `proxy.gw.tld`. -/
def c8Request : JsRequest :=
  ⟨⟨jstr "https:", jstr "proxy.gw.tld", jstr "/api/generate", []⟩,
   jstr "POST", [], some (some (jstr "github.com"))⟩

end ClaimMaterial

section HelperLemmas

theorem joinSep_cons_of_ne_nil (sep p : Str) (ps : List Str) (h : ps ≠ []) :
    joinSep sep (p :: ps) = p ++ sep ++ joinSep sep ps := by
  cases ps with
  | nil => exact absurd rfl h
  | cons q qs => rfl

theorem splitDD_ne_nil (l : Str) : splitDD l ≠ [] := by
  match l with
  | [] => simp [splitDD]
  | [c] => simp [splitDD]
  | c₁ :: c₂ :: rest =>
    simp only [splitDD]
    split
    · simp
    · split <;> simp

theorem joinSep_splitDD (l : Str) : joinSep ['-', '-'] (splitDD l) = l := by
  induction l using splitDD.induct with
  | case1 => simp [splitDD, joinSep]
  | case2 c => simp [splitDD, joinSep]
  | case3 c₁ c₂ rest hcond ih =>
    obtain ⟨rfl, rfl⟩ := hcond
    have h1 : splitDD ('-' :: '-' :: rest) = [] :: splitDD rest := by simp [splitDD]
    have h2 : splitDD rest ≠ [] := splitDD_ne_nil rest
    rw [h1, joinSep_cons_of_ne_nil _ _ _ h2, ih]
    rfl
  | case4 c₁ c₂ rest hcond hnil ih =>
    exact absurd hnil (splitDD_ne_nil _)
  | case5 c₁ c₂ rest hcond p ps hsp ih =>
    have h1 : splitDD (c₁ :: c₂ :: rest) = (c₁ :: p) :: ps := by
      simp only [splitDD]
      rw [if_neg hcond, hsp]
    rw [hsp] at ih
    rw [h1]
    cases ps with
    | nil =>
      simp only [joinSep] at ih ⊢
      rw [ih]
    | cons q qs =>
      rw [joinSep_cons_of_ne_nil _ _ _ (by simp)] at ih ⊢
      simp only [List.append_assoc, List.cons_append, List.nil_append] at ih ⊢
      rw [ih]

theorem splitDot_ne_nil (l : Str) : splitDot l ≠ [] := by
  match l with
  | [] => simp [splitDot]
  | c :: rest =>
    simp only [splitDot]
    split
    · simp
    · split <;> simp

theorem splitDD_append (p rest : Str) (hp : noDD p = true)
    (hlast : ¬ p.getLast? = some '-') :
    splitDD (p ++ '-' :: '-' :: rest) = p :: splitDD rest := by
  induction p with
  | nil => simp [splitDD]
  | cons c p' ih =>
    cases p' with
    | nil =>
      have hc : ¬ c = '-' := by simpa using hlast
      simp [splitDD, hc]
    | cons c₂ p'' =>
      have hnd : ¬ (c = '-' ∧ c₂ = '-') := by
        intro hcc
        obtain ⟨rfl, rfl⟩ := hcc
        simp [noDD] at hp
      have hp' : noDD (c₂ :: p'') = true := by
        simp [noDD] at hp
        exact hp.2
      have hlast' : ¬ (c₂ :: p'').getLast? = some '-' := by
        rwa [List.getLast?_cons_cons] at hlast
      have ih' := ih hp' hlast'
      simp only [List.cons_append] at ih' ⊢
      simp only [splitDD]
      rw [if_neg hnd, ih']

theorem splitDD_no_dd (l : Str) (h : noDD l = true) : splitDD l = [l] := by
  induction l with
  | nil => simp [splitDD]
  | cons c t ih =>
    cases t with
    | nil => simp [splitDD]
    | cons c₂ t' =>
      have hnd : ¬ (c = '-' ∧ c₂ = '-') := by
        intro hcc
        obtain ⟨rfl, rfl⟩ := hcc
        simp [noDD] at h
      have h' : noDD (c₂ :: t') = true := by
        simp [noDD] at h
        exact h.2
      simp only [splitDD]
      rw [if_neg hnd, ih h']

theorem splitDD_joinDD (labels : List Str) (hne : labels ≠ [])
    (h : ∀ l ∈ labels, noDD l = true ∧ ¬ l.getLast? = some '-') :
    splitDD (joinSep ['-', '-'] labels) = labels := by
  induction labels with
  | nil => exact absurd rfl hne
  | cons l ls ih =>
    cases ls with
    | nil =>
      simp only [joinSep]
      exact splitDD_no_dd l (h l (by simp)).1
    | cons m ms =>
      rw [joinSep_cons_of_ne_nil _ _ _ (by simp)]
      simp only [List.append_assoc, List.cons_append, List.nil_append]
      rw [splitDD_append _ _ (h l (by simp)).1 (h l (by simp)).2]
      rw [ih (by simp) (fun x hx => h x (by simp [hx]))]

theorem replaceDotsWithDD_no_dot (l : Str) (h : ∀ c ∈ l, ¬ c = '.') :
    replaceDotsWithDD l = l := by
  induction l with
  | nil => rfl
  | cons c t ih =>
    simp only [replaceDotsWithDD]
    rw [if_neg (h c (by simp)), ih (fun x hx => h x (by simp [hx]))]

theorem replaceDotsWithDD_append (p rest : Str) (hp : ∀ c ∈ p, ¬ c = '.') :
    replaceDotsWithDD (p ++ rest) = p ++ replaceDotsWithDD rest := by
  induction p with
  | nil => simp
  | cons c t ih =>
    simp only [List.cons_append, replaceDotsWithDD]
    rw [if_neg (hp c (by simp))]
    exact congrArg (List.cons c) (ih (fun x hx => hp x (by simp [hx])))

theorem replaceDots_joinDot (parts : List Str) (h : ∀ p ∈ parts, ∀ c ∈ p, ¬ c = '.') :
    replaceDotsWithDD (joinSep ['.'] parts) = joinSep ['-', '-'] parts := by
  induction parts with
  | nil => rfl
  | cons l ls ih =>
    cases ls with
    | nil => exact replaceDotsWithDD_no_dot l (h l (by simp))
    | cons m ms =>
      have hdot : replaceDotsWithDD ('.' :: joinSep ['.'] (m :: ms))
          = '-' :: '-' :: replaceDotsWithDD (joinSep ['.'] (m :: ms)) := by
        simp [replaceDotsWithDD]
      rw [joinSep_cons_of_ne_nil ['.'] l (m :: ms) (by simp),
          joinSep_cons_of_ne_nil ['-', '-'] l (m :: ms) (by simp)]
      simp only [List.append_assoc, List.cons_append, List.nil_append, List.append_eq]
      rw [replaceDotsWithDD_append _ _ (h l (by simp)), hdot,
          ih (fun x hx => h x (by simp [hx]))]

theorem mem_joinSep {c : Char} {sep : Str} {parts : List Str}
    (hc : c ∈ joinSep sep parts) : (∃ p ∈ parts, c ∈ p) ∨ c ∈ sep := by
  induction parts with
  | nil => simp [joinSep] at hc
  | cons l ls ih =>
    cases ls with
    | nil =>
      simp only [joinSep] at hc
      exact Or.inl ⟨l, by simp, hc⟩
    | cons m ms =>
      rw [joinSep_cons_of_ne_nil _ _ _ (by simp)] at hc
      simp only [List.mem_append] at hc
      rcases hc with (hc | hc) | hc
      · exact Or.inl ⟨l, by simp, hc⟩
      · exact Or.inr hc
      · rcases ih hc with ⟨p, hp, hcp⟩ | hsep
        · exact Or.inl ⟨p, by simp [hp], hcp⟩
        · exact Or.inr hsep

theorem mem_joinSep_of_mem {c : Char} {sep : Str} {parts : List Str} {p : Str}
    (hp : p ∈ parts) (hc : c ∈ p) : c ∈ joinSep sep parts := by
  induction parts with
  | nil => simp at hp
  | cons l ls ih =>
    cases ls with
    | nil =>
      simp only [List.mem_singleton] at hp
      subst hp
      simpa [joinSep] using hc
    | cons m ms =>
      rw [joinSep_cons_of_ne_nil _ _ _ (by simp)]
      simp only [List.mem_append]
      rcases List.mem_cons.mp hp with rfl | hp'
      · exact Or.inl (Or.inl hc)
      · exact Or.inr (ih hp')

theorem mem_of_mem_splitDD {c : Char} {l p : Str} (hp : p ∈ splitDD l) (hc : c ∈ p) :
    c ∈ l := by
  have h := @mem_joinSep_of_mem c ['-', '-'] (splitDD l) p hp hc
  rwa [joinSep_splitDD] at h

theorem dropWhile_eq_self_of_all {p : Char → Bool} {l : Str}
    (h : ∀ c ∈ l, p c = false) : l.dropWhile p = l := by
  cases l with
  | nil => rfl
  | cons c t =>
    rw [List.dropWhile_cons, if_neg]
    simp [h c (by simp)]

theorem jsTrim_eq_self (l : Str) (h : ∀ c ∈ l, isJsWhitespace c = false) :
    jsTrim l = l := by
  unfold jsTrim
  rw [dropWhile_eq_self_of_all h,
      dropWhile_eq_self_of_all (fun c hc => h c (List.mem_reverse.mp hc)),
      List.reverse_reverse]

theorem isSubChar_not_ws {c : Char} (h : isSubChar c = true) : isJsWhitespace c = false := by
  by_contra hw
  rw [Bool.not_eq_false] at hw
  have hmem : c ∈ wsChars := by simpa [isJsWhitespace, List.contains] using hw
  fin_cases hmem <;> exact absurd h (by decide)

theorem isSubChar_not_dot {c : Char} (h : isSubChar c = true) : ¬ c = '.' := by
  intro hc
  subst hc
  exact absurd h (by decide)

theorem matchesSubdomainCharset_eq_true {l : Str} :
    matchesSubdomainCharset l = true ↔ l ≠ [] ∧ ∀ c ∈ l, isSubChar c = true := by
  simp [matchesSubdomainCharset, List.all_eq_true, List.isEmpty_iff]

theorem matchesHostnameCharset_eq_true {l : Str} :
    matchesHostnameCharset l = true ↔ l ≠ [] ∧ ∀ c ∈ l, isHostChar c = true := by
  simp [matchesHostnameCharset, List.all_eq_true, List.isEmpty_iff]

theorem isValidSubdomainFormat_eq_false (s : Str)
    (h : (splitDD s).length < 2 ∨
      ∃ p ∈ splitDD s, p = [] ∨ p.head? = some '-' ∨ p.getLast? = some '-') :
    isValidSubdomainFormat s = false := by
  simp only [isValidSubdomainFormat]
  by_cases h1 : (decide (s.head? = some '-') || decide (s.getLast? = some '-')) = true
  · rw [if_pos h1]
  · rw [if_neg h1]
    by_cases h2 : (splitDD s).length < 2
    · rw [if_pos h2]
    · rw [if_neg h2]
      rcases h with h | ⟨p, hp, hbad⟩
      · exact absurd h h2
      · refine List.all_eq_false.mpr ⟨p, hp, ?_⟩
        rcases hbad with rfl | hh | hl
        · simp
        · simp [hh]
        · simp [hl]

theorem mem_hSet {hs : HeadersM} {n v : Str} {q : Str × Str} (h : q ∈ hSet hs n v) :
    q ∈ hs ∨ q = (n, v) := by
  unfold hSet at h
  rcases List.mem_append.mp h with h | h
  · exact Or.inl (List.mem_filter.mp h).1
  · simp only [List.mem_singleton] at h
    exact Or.inr h

theorem mem_hDelete {hs : HeadersM} {n : Str} {q : Str × Str} (h : q ∈ hDelete hs n) :
    q ∈ hs := (List.mem_filter.mp h).1

theorem find?_filter_not_none {α : Type} (p : α → Bool) (l : List α) :
    (l.filter fun x => !(p x)).find? p = none := by
  rw [List.find?_eq_none]
  intro x hx
  have h2 := (List.mem_filter.mp hx).2
  simp only [Bool.not_eq_true'] at h2
  simp [h2]

theorem find?_filter_imp {α : Type} (p q : α → Bool) (l : List α)
    (h : ∀ x, p x = true → q x = true) :
    (l.filter q).find? p = l.find? p := by
  induction l with
  | nil => rfl
  | cons a t ih =>
    by_cases hq : q a = true
    · rw [List.filter_cons_of_pos hq]
      by_cases hp : p a = true
      · rw [List.find?_cons_of_pos _ hp, List.find?_cons_of_pos _ hp]
      · rw [List.find?_cons_of_neg _ hp, List.find?_cons_of_neg _ hp, ih]
    · have hp : ¬ p a = true := fun hpa => hq (h a hpa)
      rw [List.filter_cons_of_neg hq, ih, List.find?_cons_of_neg _ hp]

theorem hGet_hSet_self (hs : HeadersM) (n v : Str) : hGet (hSet hs n v) n = some v := by
  unfold hGet hSet
  rw [List.find?_append,
      find?_filter_not_none (fun x => decide (toLowerL x.1 = toLowerL n)) hs]
  simp

theorem hGet_hSet_ne (hs : HeadersM) (n v m : Str) (h : ¬ toLowerL n = toLowerL m) :
    hGet (hSet hs n v) m = hGet hs m := by
  unfold hGet hSet
  rw [List.find?_append,
      find?_filter_imp (fun x => decide (toLowerL x.1 = toLowerL m))
        (fun x => !decide (toLowerL x.1 = toLowerL n)) hs ?_]
  · have h2 : List.find? (fun p => decide (toLowerL p.1 = toLowerL m)) [(n, v)] = none := by
      simp [h]
    rw [h2, Option.or_none]
  · intro x hx
    simp only [decide_eq_true_eq] at hx
    simp only [Bool.not_eq_true', decide_eq_false_iff_not]
    rw [hx]
    exact fun hc => h hc.symm

theorem hGet_hDelete_ne (hs : HeadersM) (n m : Str) (h : ¬ toLowerL n = toLowerL m) :
    hGet (hDelete hs n) m = hGet hs m := by
  unfold hGet hDelete
  rw [find?_filter_imp (fun x => decide (toLowerL x.1 = toLowerL m))
        (fun x => !decide (toLowerL x.1 = toLowerL n)) hs ?_]
  intro x hx
  simp only [decide_eq_true_eq] at hx
  simp only [Bool.not_eq_true', decide_eq_false_iff_not]
  rw [hx]
  exact fun hc => h hc.symm

theorem hGet_backfill_ne (c : HeadersM) (n v m : Str) (h : ¬ toLowerL n = toLowerL m) :
    hGet (backfillHeader c n v) m = hGet c m := by
  unfold backfillHeader
  split
  · rfl
  · exact hGet_hSet_ne c n v m h

theorem hGet_rewriteReferer_ne (c H : HeadersM) (t : JsURL) (m : Str)
    (h : ¬ toLowerL (jstr "Referer") = toLowerL m) :
    hGet (rewriteRefererHeader c H t) m = hGet c m := by
  unfold rewriteRefererHeader
  split
  · split
    · split
      · exact hGet_hSet_ne c _ _ m h
      · exact hGet_hDelete_ne c _ m h
    · rfl
  · rfl

theorem headersClean_hSet {hs : HeadersM} {n v : Str}
    (hn : blockedHeaders.contains (toLowerL n) = false)
    (h : HeadersClean hs) : HeadersClean (hSet hs n v) := by
  intro p hp
  rcases mem_hSet hp with hp | rfl
  · exact h p hp
  · exact hn

theorem headersClean_hDelete {hs : HeadersM} {n : Str} (h : HeadersClean hs) :
    HeadersClean (hDelete hs n) :=
  fun p hp => h p (mem_hDelete hp)

theorem headersClean_foldl (H : HeadersM) : ∀ acc : HeadersM, HeadersClean acc →
    HeadersClean (H.foldl
      (fun acc p =>
        if blockedHeaders.contains (toLowerL p.1) then acc else hSet acc p.1 p.2) acc) := by
  induction H with
  | nil => exact fun acc h => h
  | cons e t ih =>
    intro acc h
    simp only [List.foldl_cons]
    apply ih
    by_cases hb : blockedHeaders.contains (toLowerL e.1) = true
    · rw [if_pos hb]
      exact h
    · rw [if_neg hb]
      exact headersClean_hSet (by simpa using hb) h

theorem headersClean_copyAllowed (H : HeadersM) : HeadersClean (copyAllowedHeaders H) :=
  headersClean_foldl H [] (by intro p hp; simp at hp)

theorem headersClean_rewriteReferer {c H : HeadersM} {t : JsURL} (h : HeadersClean c) :
    HeadersClean (rewriteRefererHeader c H t) := by
  unfold rewriteRefererHeader
  split
  · split
    · split
      · exact headersClean_hSet (by decide) h
      · exact headersClean_hDelete h
    · exact h
  · exact h

theorem headersClean_backfill {c : HeadersM} {n v : Str}
    (hn : blockedHeaders.contains (toLowerL n) = false)
    (h : HeadersClean c) : HeadersClean (backfillHeader c n v) := by
  unfold backfillHeader
  split
  · exact h
  · exact headersClean_hSet hn h

theorem hGet_addCors_acao (hs : HeadersM) :
    hGet (addCorsHeaders hs) (jstr "Access-Control-Allow-Origin") = some (jstr "*") := by
  unfold addCorsHeaders
  rw [hGet_hSet_ne _ _ _ _ (by decide), hGet_hSet_ne _ _ _ _ (by decide),
      hGet_hSet_ne _ _ _ _ (by decide), hGet_hSet_ne _ _ _ _ (by decide),
      hGet_hSet_self]

theorem digitChar_nine (n : Nat) : digitChar (n + 9) = '9' := rfl

theorem digitChar_spec (d : Nat) :
    (digitChar d).isDigit = true ∧ ¬ digitChar d = '.' ∧ lcChar (digitChar d) = digitChar d := by
  match d with
  | 0 => decide
  | 1 => decide
  | 2 => decide
  | 3 => decide
  | 4 => decide
  | 5 => decide
  | 6 => decide
  | 7 => decide
  | 8 => decide
  | n + 9 => rw [digitChar_nine]; decide

theorem digitChar_val (d : Nat) (h : d ≤ 9) : (digitChar d).toNat - 48 = d := by
  interval_cases d <;> decide

theorem natDec3_digits (n : Nat) : ∀ c ∈ natDec3 n,
    c.isDigit = true ∧ ¬ c = '.' ∧ lcChar c = c := by
  unfold natDec3
  split
  · intro c hc
    simp only [List.mem_singleton] at hc
    subst hc
    exact digitChar_spec _
  · split
    · intro c hc
      simp only [List.mem_cons, List.mem_singleton, List.not_mem_nil, or_false] at hc
      rcases hc with rfl | rfl <;> exact digitChar_spec _
    · intro c hc
      simp only [List.mem_cons, List.mem_singleton, List.not_mem_nil, or_false] at hc
      rcases hc with rfl | rfl | rfl <;> exact digitChar_spec _

theorem natDec3_len_ge (n : Nat) : 1 ≤ (natDec3 n).length := by
  unfold natDec3
  split
  · simp
  · split <;> simp

theorem natDec3_len_le (n : Nat) : (natDec3 n).length ≤ 3 := by
  unfold natDec3
  split
  · simp
  · split <;> simp

theorem natDec3_all_digit (n : Nat) : (natDec3 n).all Char.isDigit = true := by
  rw [List.all_eq_true]
  exact fun c hc => (natDec3_digits n c hc).1

theorem digitsToNat_natDec3 (n : Nat) (h : n < 1000) : digitsToNat (natDec3 n) = n := by
  unfold natDec3
  by_cases h1 : n < 10
  · rw [if_pos h1]
    simp only [digitsToNat, List.foldl]
    rw [digitChar_val n (by omega)]
    omega
  · rw [if_neg h1]
    by_cases h2 : n < 100
    · rw [if_pos h2]
      simp only [digitsToNat, List.foldl]
      rw [digitChar_val (n / 10) (by omega), digitChar_val (n % 10) (by omega)]
      omega
    · rw [if_neg h2]
      simp only [digitsToNat, List.foldl]
      rw [digitChar_val (n / 100) (by omega), digitChar_val (n / 10 % 10) (by omega),
          digitChar_val (n % 10) (by omega)]
      omega

theorem splitDot_no_dot (l : Str) (h : ∀ c ∈ l, ¬ c = '.') : splitDot l = [l] := by
  induction l with
  | nil => rfl
  | cons c t ih =>
    simp only [splitDot]
    rw [if_neg (h c (by simp)), ih (fun x hx => h x (by simp [hx]))]

theorem splitDot_append (p rest : Str) (hp : ∀ c ∈ p, ¬ c = '.') :
    splitDot (p ++ '.' :: rest) = p :: splitDot rest := by
  induction p with
  | nil => simp [splitDot]
  | cons c t ih =>
    have ih' := ih (fun x hx => hp x (by simp [hx]))
    simp only [List.cons_append] at ih' ⊢
    simp only [splitDot]
    rw [if_neg (hp c (by simp)), ih']

theorem toLowerL_eq_self (l : Str) (h : ∀ c ∈ l, lcChar c = c) : toLowerL l = l := by
  unfold toLowerL
  induction l with
  | nil => rfl
  | cons c t ih =>
    simp only [List.map_cons]
    rw [h c (by simp), ih (fun x hx => h x (by simp [hx]))]

theorem mem_ipv4Str {ch : Char} {a b c d : Nat} (h : ch ∈ ipv4Str a b c d) :
    ch = '.' ∨ ch ∈ natDec3 a ∨ ch ∈ natDec3 b ∨ ch ∈ natDec3 c ∨ ch ∈ natDec3 d := by
  simp only [ipv4Str, List.mem_append, List.mem_cons] at h
  tauto

theorem splitDot_ipv4Str (a b c d : Nat) :
    splitDot (ipv4Str a b c d) = [natDec3 a, natDec3 b, natDec3 c, natDec3 d] := by
  have hnd : ∀ n, ∀ c ∈ natDec3 n, ¬ c = '.' := fun n c hc => (natDec3_digits n c hc).2.1
  show splitDot (natDec3 a ++ '.' :: natDec3 b ++ '.' :: natDec3 c ++ '.' :: natDec3 d) = _
  simp only [List.append_assoc, List.cons_append]
  rw [splitDot_append _ _ (hnd a), splitDot_append _ _ (hnd b), splitDot_append _ _ (hnd c),
      splitDot_no_dot _ (hnd d)]

end HelperLemmas

section ClaimTheorems

/-- Claim C1 (code bug): in the end-to-end scenario the non-redirect
`text/html` upstream response is delivered with its body byte-for-byte
unchanged, so the absolute same-origin link is NOT rewritten to
gateway-subdomain form: the second declaration of `proxyRequest` in the
source shadows the content-rewriting one.  Moreover, even the shadowed
rewriter would have produced `https://youtube.com.gw.tld/next` rather than
the claimed `https://youtube--com.gw.tld/next`, because the
`replace(/\\./g, '--')` call in `rewriteUrl` never matches a dot. -/
theorem C1_thm :
    (proxyUpstreamResponse c1Upstream c1RequestUrl).body = c1HtmlBody ∧
    containsSub c1HtmlBody (jstr "https://youtube--com.gw.tld/next") = false ∧
    buildTargetUrl (jstr "youtube--com") c1RequestUrl = some c1TargetUrl ∧
    rewriteUrl (jstr "https://youtube.com/next") c1TargetUrl (jstr "gw.tld")
      = jstr "https://youtube.com.gw.tld/next" := by
  decide

/-- Claim C2 counterexample: `a--b.com` is built from two labels that each
match `[A-Za-z0-9-]+` and neither start nor end with a hyphen, yet
`decode(encode("a--b.com"))` yields `a.b.com`, not `a--b.com`.  In the
other direction, `" a--b"` is accepted by the decoder (which trims), but
`encode(decode(" a--b"))` yields `a--b`, not `" a--b"`. -/
theorem C2_counterexample :
    claimLabel (jstr "a--b") = true ∧ claimLabel (jstr "com") = true ∧
    joinSep ['.'] [jstr "a--b", jstr "com"] = jstr "a--b.com" ∧
    (convertUrlToSubdomain (jstr "a--b.com")).bind convertSubdomainToUrl
      = some (jstr "a.b.com") ∧
    ¬ (convertUrlToSubdomain (jstr "a--b.com")).bind convertSubdomainToUrl
        = some (jstr "a--b.com") ∧
    convertSubdomainToUrl (jstr " a--b") = some (jstr "a.b") ∧
    ¬ convertUrlToSubdomain (jstr "a.b") = some (jstr " a--b") := by
  decide

/-- Claim C2 (amended): for every domain of at least two labels, each
matching `[A-Za-z0-9-]+`, not starting or ending with a hyphen, AND
containing no two consecutive hyphens, decoding the encoding gives the
domain back; and for every string accepted by the decoder, encoding the
decoding gives back the TRIMMED input (hence the input itself whenever it
carries no surrounding whitespace). -/
theorem C2_thm :
    (∀ labels : List Str, 2 ≤ labels.length →
      (∀ l ∈ labels, claimLabel l = true ∧ noDD l = true) →
      (convertUrlToSubdomain (joinSep ['.'] labels)).bind convertSubdomainToUrl
        = some (joinSep ['.'] labels))
    ∧ (∀ s d : Str, convertSubdomainToUrl s = some d →
        convertUrlToSubdomain d = some (jsTrim s)) := by
  constructor
  · intro labels hlen hlab
    have hchar : ∀ l ∈ labels, l ≠ [] ∧ ∀ c ∈ l, isSubChar c = true := by
      intro l hl
      have h1 := (hlab l hl).1
      simp only [claimLabel, Bool.and_eq_true] at h1
      exact matchesSubdomainCharset_eq_true.mp h1.1.1
    have hlast : ∀ l ∈ labels, ¬ l.getLast? = some '-' := by
      intro l hl
      have h1 := (hlab l hl).1
      simp only [claimLabel, Bool.and_eq_true, Bool.not_eq_true',
        decide_eq_false_iff_not] at h1
      exact h1.2
    obtain ⟨a, b, r, rfl⟩ : ∃ a b r, labels = a :: b :: r := by
      match labels, hlen with
      | a :: b :: r, _ => exact ⟨a, b, r, rfl⟩
    have hdne : joinSep ['.'] (a :: b :: r) ≠ [] := by
      rw [joinSep_cons_of_ne_nil _ _ _ (by simp)]
      simp
    have hdE : (joinSep ['.'] (a :: b :: r)).isEmpty = false := by
      cases hde : (joinSep ['.'] (a :: b :: r)).isEmpty with
      | false => rfl
      | true => exact absurd (List.isEmpty_iff.mp hde) hdne
    have hdchars : ∀ c ∈ joinSep ['.'] (a :: b :: r), isHostChar c = true := by
      intro c hc
      rcases mem_joinSep hc with ⟨p, hp, hcp⟩ | hcs
      · simp [isHostChar, (hchar p hp).2 c hcp]
      · simp only [List.mem_singleton] at hcs
        subst hcs
        decide
    have hdC : matchesHostnameCharset (joinSep ['.'] (a :: b :: r)) = true :=
      matchesHostnameCharset_eq_true.mpr ⟨hdne, hdchars⟩
    have hnodot : ∀ p ∈ a :: b :: r, ∀ c ∈ p, ¬ c = '.' := fun p hp c hc =>
      isSubChar_not_dot ((hchar p hp).2 c hc)
    have hrepl : replaceDotsWithDD (joinSep ['.'] (a :: b :: r))
        = joinSep ['-', '-'] (a :: b :: r) :=
      replaceDots_joinDot _ hnodot
    have henc : convertUrlToSubdomain (joinSep ['.'] (a :: b :: r))
        = some (joinSep ['-', '-'] (a :: b :: r)) := by
      simp only [convertUrlToSubdomain, hdE, hdC, hrepl]
      simp
    have hechars : ∀ c ∈ joinSep ['-', '-'] (a :: b :: r), isSubChar c = true := by
      intro c hc
      rcases mem_joinSep hc with ⟨p, hp, hcp⟩ | hcs
      · exact (hchar p hp).2 c hcp
      · have hc2 : c = '-' := by simpa using hcs
        simp only [hc2]
        decide
    have hene : joinSep ['-', '-'] (a :: b :: r) ≠ [] := by
      rw [joinSep_cons_of_ne_nil _ _ _ (by simp)]
      simp
    have heE : (joinSep ['-', '-'] (a :: b :: r)).isEmpty = false := by
      cases hde : (joinSep ['-', '-'] (a :: b :: r)).isEmpty with
      | false => rfl
      | true => exact absurd (List.isEmpty_iff.mp hde) hene
    have heT : jsTrim (joinSep ['-', '-'] (a :: b :: r)) = joinSep ['-', '-'] (a :: b :: r) :=
      jsTrim_eq_self _ (fun c hc => isSubChar_not_ws (hechars c hc))
    have heC : matchesSubdomainCharset (joinSep ['-', '-'] (a :: b :: r)) = true :=
      matchesSubdomainCharset_eq_true.mpr ⟨hene, hechars⟩
    have hsplit : splitDD (joinSep ['-', '-'] (a :: b :: r)) = a :: b :: r :=
      splitDD_joinDD _ (by simp) (fun l hl => ⟨(hlab l hl).2, hlast l hl⟩)
    have hany : (a :: b :: r).any (fun p => p.isEmpty) = false := by
      simp only [List.any_eq_false]
      intro p hp
      simp only [List.isEmpty_iff]
      exact (hchar p hp).1
    have hdec : convertSubdomainToUrl (joinSep ['-', '-'] (a :: b :: r))
        = some (joinSep ['.'] (a :: b :: r)) := by
      simp only [convertSubdomainToUrl, heE, heT, heC, hsplit, hany]
      simp
    rw [henc]
    exact hdec
  · intro s d h
    simp only [convertSubdomainToUrl] at h
    by_cases h1 : s.isEmpty = true
    · rw [if_pos h1] at h
      exact absurd h (by simp)
    · rw [if_neg h1] at h
      by_cases h2 : matchesSubdomainCharset (jsTrim s) = true
      · rw [if_neg (by simp [h2])] at h
        by_cases h3 : (splitDD (jsTrim s)).length < 2
        · rw [if_pos h3] at h
          exact absurd h (by simp)
        · rw [if_neg h3] at h
          by_cases h4 : ((splitDD (jsTrim s)).any fun p => p.isEmpty) = true
          · rw [if_pos h4] at h
            exact absurd h (by simp)
          · rw [if_neg h4] at h
            have hd : d = joinSep ['.'] (splitDD (jsTrim s)) :=
              (Option.some_inj.mp h).symm
            subst hd
            have htchars : ∀ c ∈ jsTrim s, isSubChar c = true :=
              (matchesSubdomainCharset_eq_true.mp h2).2
            have hnodot : ∀ p ∈ splitDD (jsTrim s), ∀ c ∈ p, ¬ c = '.' :=
              fun p hp c hc => isSubChar_not_dot (htchars c (mem_of_mem_splitDD hp hc))
            obtain ⟨p1, p2, pr, hps⟩ :
                ∃ p1 p2 pr, splitDD (jsTrim s) = p1 :: p2 :: pr := by
              match hv : splitDD (jsTrim s), h3 with
              | p1 :: p2 :: pr, _ => exact ⟨p1, p2, pr, rfl⟩
              | [], h3 => simp at h3
              | [p1], h3 => simp at h3
            have hne : joinSep ['.'] (splitDD (jsTrim s)) ≠ [] := by
              rw [hps, joinSep_cons_of_ne_nil _ _ _ (by simp)]
              simp
            have hE : (joinSep ['.'] (splitDD (jsTrim s))).isEmpty = false := by
              cases hde : (joinSep ['.'] (splitDD (jsTrim s))).isEmpty with
              | false => rfl
              | true => exact absurd (List.isEmpty_iff.mp hde) hne
            have hchars : ∀ c ∈ joinSep ['.'] (splitDD (jsTrim s)), isHostChar c = true := by
              intro c hc
              rcases mem_joinSep hc with ⟨p, hp, hcp⟩ | hcs
              · simp [isHostChar, htchars c (mem_of_mem_splitDD hp hcp)]
              · simp only [List.mem_singleton] at hcs
                subst hcs
                decide
            have hC : matchesHostnameCharset (joinSep ['.'] (splitDD (jsTrim s))) = true :=
              matchesHostnameCharset_eq_true.mpr ⟨hne, hchars⟩
            have hrepl : replaceDotsWithDD (joinSep ['.'] (splitDD (jsTrim s)))
                = joinSep ['-', '-'] (splitDD (jsTrim s)) :=
              replaceDots_joinDot _ hnodot
            simp only [convertUrlToSubdomain, hE, hC, hrepl, joinSep_splitDD]
            simp
      · rw [if_pos (by simp [h2])] at h
        exact absurd h (by simp)

/-- Witness for C2: the round-trip laws evaluated at `a-b.example.com` and
at the encoded string `x--y`. -/
theorem C2_witness :
    (convertUrlToSubdomain (joinSep ['.'] [jstr "a-b", jstr "example", jstr "com"])).bind
        convertSubdomainToUrl
      = some (joinSep ['.'] [jstr "a-b", jstr "example", jstr "com"])
    ∧ convertUrlToSubdomain (jstr "x.y") = some (jsTrim (jstr "x--y")) :=
  ⟨C2_thm.1 [jstr "a-b", jstr "example", jstr "com"] (by decide) (by decide),
   C2_thm.2 (jstr "x--y") (jstr "x.y") (by decide)⟩

/-- Claim C3: for every inbound header set and every target URL, the
outbound header set produced by `cleanRequestHeaders` contains no header
whose lower-cased name is in `CONFIG.BLOCKED_HEADERS` (whatever the casing
of the inbound names), and its `Host` header equals the hostname of the
target URL. -/
theorem C3_thm (originalHeaders : HeadersM) (targetUrl : JsURL) :
    ((cleanRequestHeaders originalHeaders targetUrl).all
        fun p => !(blockedHeaders.contains (toLowerL p.1))) = true
    ∧ hGet (cleanRequestHeaders originalHeaders targetUrl) (jstr "Host")
        = some targetUrl.hostname := by
  constructor
  · have key : HeadersClean (cleanRequestHeaders originalHeaders targetUrl) := by
      simp only [cleanRequestHeaders]
      apply headersClean_backfill (by decide)
      apply headersClean_backfill (by decide)
      apply headersClean_backfill (by decide)
      apply headersClean_backfill (by decide)
      apply headersClean_rewriteReferer
      split
      · apply headersClean_hSet (by decide)
        apply headersClean_hSet (by decide)
        exact headersClean_copyAllowed originalHeaders
      · apply headersClean_hSet (by decide)
        exact headersClean_copyAllowed originalHeaders
    rw [List.all_eq_true]
    intro p hp
    simpa using key p hp
  · simp only [cleanRequestHeaders]
    rw [hGet_backfill_ne _ _ _ _ (by decide),
        hGet_backfill_ne _ _ _ _ (by decide),
        hGet_backfill_ne _ _ _ _ (by decide),
        hGet_backfill_ne _ _ _ _ (by decide),
        hGet_rewriteReferer_ne _ _ _ _ (by decide)]
    split
    · rw [hGet_hSet_ne _ _ _ _ (by decide), hGet_hSet_self]
    · rw [hGet_hSet_self]

/-- Claim C4: for every hostname whose first dot-label splits on the
double-hyphen delimiter into fewer than 2 parts, or has an empty part, or
has a part starting or ending with a hyphen, the decoder
(`extractSubdomain`) returns failure, which the dispatcher turns into a 400
before any network I/O. -/
theorem C4_thm (hostname : Str)
    (h : (splitDD ((splitDot hostname).headD [])).length < 2 ∨
      ∃ p ∈ splitDD ((splitDot hostname).headD []),
        p = [] ∨ p.head? = some '-' ∨ p.getLast? = some '-') :
    extractSubdomain hostname = none := by
  rcases hsp : splitDot hostname with _ | ⟨sub, rest⟩
  · exact absurd hsp (splitDot_ne_nil _)
  · have hval : isValidSubdomainFormat sub = false := by
      apply isValidSubdomainFormat_eq_false
      rw [hsp] at h
      simpa using h
    simp only [extractSubdomain, hsp]
    by_cases h1 : (sub :: rest).length < 2
    · rw [if_pos h1]
    · rw [if_neg h1]
      by_cases h2 : matchesSubdomainCharset sub = true
      · rw [if_neg (by simp [h2]), if_pos (by simp [hval])]
      · rw [if_pos (by simp [Bool.not_eq_true] at h2 ⊢; exact h2)]

/-- Witness for C4: the hostname `abc.example.com`, whose first label
carries no delimiter, is rejected. -/
theorem C4_witness :
    ((splitDD ((splitDot (jstr "abc.example.com")).headD [])).length < 2 ∨
      ∃ p ∈ splitDD ((splitDot (jstr "abc.example.com")).headD []),
        p = [] ∨ p.head? = some '-' ∨ p.getLast? = some '-')
    ∧ extractSubdomain (jstr "abc.example.com") = none :=
  ⟨Or.inl (by decide), C4_thm (jstr "abc.example.com") (Or.inl (by decide))⟩

/-- Claim C5: `isPublicUrl` rejects `10.1.2.3`, `172.16.0.5`,
`192.168.1.1`, `127.0.0.1`, `169.254.1.1` and `localhost`, accepts
`93.184.216.34` and `example.com`, and more generally rejects every
dotted-decimal IPv4 hostname inside `10.0.0.0/8`, `172.16.0.0/12`,
`192.168.0.0/16`, `127.0.0.0/8` or `169.254.0.0/16`. -/
theorem C5_thm :
    (isPublicUrl ⟨jstr "https:", jstr "10.1.2.3", jstr "/", []⟩ = false ∧
     isPublicUrl ⟨jstr "https:", jstr "172.16.0.5", jstr "/", []⟩ = false ∧
     isPublicUrl ⟨jstr "https:", jstr "192.168.1.1", jstr "/", []⟩ = false ∧
     isPublicUrl ⟨jstr "https:", jstr "127.0.0.1", jstr "/", []⟩ = false ∧
     isPublicUrl ⟨jstr "https:", jstr "169.254.1.1", jstr "/", []⟩ = false ∧
     isPublicUrl ⟨jstr "https:", jstr "localhost", jstr "/", []⟩ = false ∧
     isPublicUrl ⟨jstr "https:", jstr "93.184.216.34", jstr "/", []⟩ = true ∧
     isPublicUrl ⟨jstr "https:", jstr "example.com", jstr "/", []⟩ = true) ∧
    ∀ a b c d : Nat, a ≤ 255 → b ≤ 255 → c ≤ 255 → d ≤ 255 →
      (a = 10 ∨ (a = 172 ∧ 16 ≤ b ∧ b ≤ 31) ∨ (a = 192 ∧ b = 168) ∨ a = 127 ∨
        (a = 169 ∧ b = 254)) →
      isPublicUrl ⟨jstr "https:", ipv4Str a b c d, jstr "/", []⟩ = false := by
  constructor
  · decide
  · intro a b c d ha hb hc hd hrange
    have hlower : toLowerL (ipv4Str a b c d) = ipv4Str a b c d := by
      apply toLowerL_eq_self
      intro ch hch
      rcases mem_ipv4Str hch with rfl | h | h | h | h
      · decide
      · exact (natDec3_digits a ch h).2.2
      · exact (natDec3_digits b ch h).2.2
      · exact (natDec3_digits c ch h).2.2
      · exact (natDec3_digits d ch h).2.2
    have hvals : [natDec3 a, natDec3 b, natDec3 c, natDec3 d].map digitsToNat
        = [a, b, c, d] := by
      simp [digitsToNat_natDec3 a (by omega), digitsToNat_natDec3 b (by omega),
            digitsToNat_natDec3 c (by omega), digitsToNat_natDec3 d (by omega)]
    have hbool : (decide (a = 10) || (decide (a = 172) && decide (16 ≤ b) && decide (b ≤ 31)) ||
        (decide (a = 192) && decide (b = 168)) || decide (a = 127) ||
        (decide (a = 169) && decide (b = 254))) = true := by
      rcases hrange with rfl | ⟨rfl, hb1, hb2⟩ | ⟨rfl, rfl⟩ | rfl | ⟨rfl, rfl⟩
      · simp
      · simp [hb1, hb2]
      · simp
      · simp
      · simp
    simp only [isPublicUrl, hlower, splitDot_ipv4Str, hvals]
    simp [natDec3_len_ge, natDec3_len_le, natDec3_all_digit, hbool]

/-- Witness for C5: the general private-range rejection evaluated at
`10.0.0.1`. -/
theorem C5_witness :
    (10 : Nat) ≤ 255 ∧
    isPublicUrl ⟨jstr "https:", ipv4Str 10 0 0 1, jstr "/", []⟩ = false :=
  ⟨by decide, C5_thm.2 10 0 0 1 (by decide) (by decide) (by decide) (by decide) (Or.inl rfl)⟩

/-- Claim C6: with inbound host `a--b--com.gw.tld` and an upstream 302
carrying `Location: https://x.b.com/path`, the response handed back to the
client carries a `Location` whose host is `x--b--com.gw.tld`, the gateway
base domain being the original inbound hostname minus its first label. -/
theorem C6_thm :
    (handleRedirect c6Upstream c6RequestUrl).status = 302 ∧
    hGet (handleRedirect c6Upstream c6RequestUrl).headers (jstr "Location")
      = some (jstr "https://x--b--com.gw.tld/path") := by
  decide

/-- Claim C7 counterexample: the OPTIONS request to `foo.gw.tld` receives a
400 (subdomain validation runs before the OPTIONS branch), not a 204, so
not every inbound OPTIONS request receives a 204. -/
theorem C7_counterexample :
    c7InvalidOptionsReq.method = jstr "OPTIONS" ∧
    (localRespOf (handleRequestLocal c7InvalidOptionsReq [])).status = 400 ∧
    ¬ (localRespOf (handleRequestLocal c7InvalidOptionsReq [])).status = 204 := by
  decide

/-- Claim C7 (amended): every OPTIONS request whose inbound hostname does
not start with the reserved landing labels `proxy`/`proxy--` and whose
first label passes subdomain validation receives a response with status 204
carrying `Access-Control-Allow-Origin: *`. -/
theorem C7_thm (req : JsRequest) (now : Str)
    (h1 : req.method = jstr "OPTIONS")
    (h2 : ¬ (splitDot req.url.hostname).head? = some (jstr "proxy"))
    (h3 : ¬ (splitDot req.url.hostname).head? = some (jstr "proxy--"))
    (h4 : ∃ s, extractSubdomain req.url.hostname = some s) :
    ∃ resp, handleRequestLocal req now = Sum.inl resp ∧ resp.status = 204 ∧
      hGet resp.headers (jstr "Access-Control-Allow-Origin") = some (jstr "*") := by
  obtain ⟨s, hs⟩ := h4
  refine ⟨handleOptions req, ?_, rfl, ?_⟩
  · simp only [handleRequestLocal, h1]
    rw [if_neg (not_or.mpr ⟨h2, h3⟩)]
    simp only [hs]
    rw [if_neg (by decide)]
    simp
  · simp only [handleOptions]
    repeat' split
    all_goals repeat rw [hGet_hSet_ne _ _ _ _ (by decide)]
    all_goals exact hGet_addCors_acao []

/-- Witness for C7: an OPTIONS request to the valid encoded host
`a--com.gw.tld` receives the 204 preflight response. -/
theorem C7_witness :
    ∃ resp, handleRequestLocal c7ValidOptionsReq [] = Sum.inl resp ∧ resp.status = 204 ∧
      hGet resp.headers (jstr "Access-Control-Allow-Origin") = some (jstr "*") :=
  C7_thm c7ValidOptionsReq [] rfl (by decide) (by decide) ⟨jstr "a--com", by decide⟩

/-- Claim C8 counterexample: the generated success body does not carry
`https://github--com.gw.tld` as its `proxyUrl` field: the parsed target URL
normalizes its empty path to `/`, which the worker appends. -/
theorem C8_counterexample :
    ¬ (localRespOf (handleRequestLocal c8Request [])).body
        = genSuccessBody (jstr "https://github.com") (jstr "https://github--com.gw.tld") := by
  decide

/-- Claim C8 (amended): `POST /api/generate` with body
`\x7b"url":"github.com"\x7d` on inbound host `proxy.gw.tld` returns a 200
JSON success response whose `proxyUrl` field is exactly
`https://github--com.gw.tld/` (with the trailing slash contributed by the
normalized pathname). -/
theorem C8_thm :
    handleRequestLocal c8Request [] = Sum.inl
      ⟨200,
       [(jstr "Content-Type", jstr "application/json; charset=utf-8"),
        (jstr "Access-Control-Allow-Origin", jstr "*")],
       genSuccessBody (jstr "https://github.com") (jstr "https://github--com.gw.tld/")⟩ := by
  decide

/-- Claim C9: the JSON rewriter is a total function (the embedding cannot
throw), and whenever the platform JSON parser fails on the input, the
original text is returned unchanged. -/
theorem C9_thm (jsonParse : Str → Option JsonVal) (jsonStringify : JsonVal → Str)
    (json : Str) (targetUrl : JsURL) (proxyDomain : Str)
    (h : jsonParse json = none) :
    rewriteJson jsonParse jsonStringify json targetUrl proxyDomain = json := by
  simp [rewriteJson, h]

/-- Witness for C9: `rewriteJson` on a non-JSON input with the failing
parser returns the input unchanged. -/
theorem C9_witness :
    (fun _ : Str => (none : Option JsonVal)) (jstr "this is not json") = none ∧
    rewriteJson (fun _ => none) (fun _ => []) (jstr "this is not json")
      ⟨jstr "https:", jstr "example.com", jstr "/", []⟩ (jstr "gw.tld")
      = jstr "this is not json" :=
  ⟨rfl, C9_thm _ _ _ _ _ rfl⟩

/-- Claim C10: whenever `extractSubdomain` accepts a hostname and returns a
subdomain, `convertSubdomainToUrl` also succeeds on that subdomain, so the
`Invalid subdomain format` throw in `buildTargetUrl` (which would surface
as a 500 instead of a 400) is unreachable on the dispatch path. -/
theorem C10_thm (hostname s : Str) (h : extractSubdomain hostname = some s) :
    ∃ d, convertSubdomainToUrl s = some d := by
  rcases hsp : splitDot hostname with _ | ⟨sub, rest⟩
  · exact absurd hsp (splitDot_ne_nil _)
  · simp only [extractSubdomain, hsp] at h
    by_cases h1 : (sub :: rest).length < 2
    · rw [if_pos h1] at h
      exact absurd h (by simp)
    · rw [if_neg h1] at h
      by_cases h2 : matchesSubdomainCharset sub = true
      · rw [if_neg (by simp [h2])] at h
        by_cases h3 : isValidSubdomainFormat sub = true
        · rw [if_neg (by simp [h3])] at h
          have hs : s = sub := (Option.some_inj.mp h).symm
          subst hs
          simp only [isValidSubdomainFormat] at h3
          by_cases h4 : (decide (s.head? = some '-') || decide (s.getLast? = some '-')) = true
          · rw [if_pos h4] at h3
            exact absurd h3 (by simp)
          · rw [if_neg h4] at h3
            by_cases h5 : (splitDD s).length < 2
            · rw [if_pos h5] at h3
              exact absurd h3 (by simp)
            · rw [if_neg h5] at h3
              have hT : jsTrim s = s :=
                jsTrim_eq_self s (fun c hc =>
                  isSubChar_not_ws ((matchesSubdomainCharset_eq_true.mp h2).2 c hc))
              have hany : ((splitDD s).any fun p => p.isEmpty) = false := by
                simp only [List.any_eq_false]
                intro p hp
                have hpred := (List.all_eq_true.mp h3) p hp
                simp only [Bool.and_eq_true, decide_eq_true_eq] at hpred
                simp only [List.isEmpty_iff]
                exact List.ne_nil_of_length_pos hpred.1.1.1
              have hE : s.isEmpty = false := by
                cases hde : s.isEmpty with
                | false => rfl
                | true =>
                  exact absurd (List.isEmpty_iff.mp hde)
                    (matchesSubdomainCharset_eq_true.mp h2).1
              exact ⟨joinSep ['.'] (splitDD s),
                by simp [convertSubdomainToUrl, hE, hT, h2, hany, h5]⟩
        · rw [if_pos (by simp [Bool.not_eq_true] at h3 ⊢; exact h3)] at h
          exact absurd h (by simp)
      · rw [if_pos (by simp [Bool.not_eq_true] at h2 ⊢; exact h2)] at h
        exact absurd h (by simp)

/-- Witness for C10: the subdomain extracted from `a--b.gw.tld` decodes
successfully. -/
theorem C10_witness : ∃ d, convertSubdomainToUrl (jstr "a--b") = some d :=
  C10_thm (jstr "a--b.gw.tld") (jstr "a--b") (by decide)

end ClaimTheorems
